import Mathlib

/-!
Verification of the Clipbrd document-indexing core.

Shallow embedding of `src/document_processing.py` (class `AsyncBM25Index`,
chunk processing, ingestion) and of the context-search combination step of
`src/question_processing.py` (`search_for_context`), together with proofs
settling the frozen claims about the natural-language specification.

Modelling conventions:
* Python floats are modelled by exact rationals (`ℚ`); the spec itself reads
  the numeric claims "exactly, over exact rational arithmetic".
* `math.log` is not a rational function; every definition that scores
  documents is parametrised by the function `lg : ℚ → ℚ` it applies to the
  idf argument.  Claims that depend on actual properties of the logarithm
  state them as hypotheses on `lg`; claims that do not hold for every `lg`.
* Python `dict`s are insertion-ordered; they are modelled by association
  lists where assignment replaces an existing key in place and appends a
  fresh key at the end, exactly the observable iteration behaviour.
* `collections.Counter(xs)` iterates keys in first-occurrence order; it is
  modelled accordingly.
* `functools.lru_cache` on `_calculate_idf` is modelled as a memo table
  keyed by the term.  The traces considered stay far below the 10000-entry
  bound, where `lru_cache` behaves as a plain memo table, so the
  recency-eviction mechanics are not modelled.
* `asyncio` concurrency: all index mutation runs under `self._lock`, and the
  per-term scoring coroutines of `_search_internal` contain no `await`, so
  `asyncio.gather` runs them to completion one after another in task order;
  the behaviour is the sequential one modelled here.  The `timeout` /
  cancellation / internal-error outcomes of the `await asyncio.wait_for`
  in `search` are modelled by an explicit `SearchOutcome` oracle; that
  oracle only matters on the path that reaches the `wait_for`.
* `asyncio.Lock` is NOT re-entrant.  `search` takes `self._lock`
  (`src/document_processing.py:183`) before it flushes, so on a cache miss
  with a non-empty pending buffer its `await self._process_batch()`
  (`:187-188`) blocks forever on the second acquire of the same lock
  (`:102`).  The model makes this branch explicit as
  `SearchBehaviour.deadlocks`: the call never returns a result list, no
  state is mutated (every `_process_batch` mutation sits inside the lock
  it never obtains), and a cancellation delivered at the blocked acquire
  propagates out of `search` — `CancelledError` is a `BaseException`, the
  `except Exception` handlers (`:216`, `:220`) do not catch it, and the
  `except asyncio.CancelledError` at `:209` covers only the `wait_for`
  block.
-/

namespace Clipbrd

/-- Python `d.get(k)` on an insertion-ordered dict modelled as an
association list. -/
def alookup {κ α : Type} [DecidableEq κ] (k : κ) : List (κ × α) → Option α
  | [] => none
  | p :: rest => if p.1 = k then some p.2 else alookup k rest

/-- Python `d[k] = v`: replace the value of an existing key in place,
append a fresh key at the end (dicts preserve insertion order). -/
def aupdate {κ α : Type} [DecidableEq κ] (k : κ) (v : α) : List (κ × α) → List (κ × α)
  | [] => [(k, v)]
  | p :: rest => if p.1 = k then (k, v) :: rest else p :: aupdate k v rest

/-- Python `collections.Counter(terms)`: term frequencies, keys in
first-occurrence order. -/
def counter (ts : List String) : List (String × ℕ) :=
  ts.foldl (fun acc t =>
    match alookup t acc with
    | some c => aupdate t (c + 1) acc
    | none => acc ++ [(t, 1)]) []

/-- Appending to a `collections.deque(maxlen := maxlen)`: the oldest entries
are evicted from the front once the bound is exceeded. -/
def dequeAppend (maxlen : ℕ) (l : List String) (t : String) : List String :=
  let l2 := l ++ [t]
  if maxlen < l2.length then l2.drop (l2.length - maxlen) else l2

/-- State of one `AsyncBM25Index` instance
(`src/document_processing.py:67-84`).  Fields keep the source names;
`lru_idf` stands for the `functools.lru_cache` wrapped around
`_calculate_idf` (`:315`), which is per-instance state as well because it is
keyed by `(self, term)`. -/
structure BM25State where
  k1 : ℚ
  b : ℚ
  cache_size : ℕ
  index : List (String × List (ℕ × ℕ))
  doc_lengths : List ℕ
  avg_doc_length : ℚ
  doc_count : ℕ
  idf_cache : List (String × ℚ)
  term_cache : List String
  batch_size : ℕ
  pending_updates : List (ℕ × List String)
  search_cache : List (String × ℚ × List (ℕ × ℚ))
  cache_ttl : ℚ
  lru_idf : List (String × ℚ)
deriving DecidableEq

/-- Source `AsyncBM25Index.__init__` with the default arguments
(`k1 = 1.5`, `b = 0.75`, `cache_size = 1000`). -/
def initState : BM25State where
  k1 := 1.5
  b := 0.75
  cache_size := 1000
  index := []
  doc_lengths := []
  avg_doc_length := 0
  doc_count := 0
  idf_cache := []
  term_cache := []
  batch_size := 1000
  pending_updates := []
  search_cache := []
  cache_ttl := 300
  lru_idf := []

/-- Source `while len(self.doc_lengths) <= doc_id: self.doc_lengths.append(0)`
(`src/document_processing.py:114-115`). -/
def padTo (l : List ℕ) (doc_id : ℕ) : List ℕ :=
  if l.length ≤ doc_id then l ++ List.replicate (doc_id + 1 - l.length) 0 else l

/-- The per-document body of `_process_batch`
(`src/document_processing.py:109-133`): term frequencies, zero-padding of
`doc_lengths`, `doc_count` increment, the incremental `avg_doc_length`
update, and the posting-list / term-cache updates.  The loop over
`term_freq.items()` only mutates `index` and `_term_cache`, so it is folded
over that pair. -/
def flushDoc (s : BM25State) (doc : ℕ × List String) : BM25State :=
  let term_freq := counter doc.2
  let doc_length := doc.2.length
  let dl := (padTo s.doc_lengths doc.1).set doc.1 doc_length
  let c := s.doc_count + 1
  let avg := (s.avg_doc_length * ((c : ℚ) - 1) + (doc_length : ℚ)) / (c : ℚ)
  let it := term_freq.foldl
    (fun (p : List (String × List (ℕ × ℕ)) × List String) tf =>
      (aupdate tf.1 (((alookup tf.1 p.1).getD []) ++ [(doc.1, tf.2)]) p.1,
       if tf.1 ∈ p.2 then p.2 else dequeAppend s.cache_size p.2 tf.1))
    (s.index, s.term_cache)
  { s with doc_lengths := dl, doc_count := c, avg_doc_length := avg,
           index := it.1, term_cache := it.2 }

/-- Source `AsyncBM25Index._process_batch` (`src/document_processing.py:100-144`):
processes every pending `(doc_id, terms)` in order, then clears the buffer.
(The source iterates the buffer in slices of `_chunk_size` for memory
reasons; the slices concatenate back to the same sequence.) -/
def _process_batch (s : BM25State) : BM25State :=
  let s2 := s.pending_updates.foldl flushDoc s
  { s2 with pending_updates := [] }

/-- Source `AsyncBM25Index.add_document` (`src/document_processing.py:86-98`):
append to the pending buffer, flush automatically once the buffer reaches
`_batch_size`. -/
def add_document (s : BM25State) (doc_id : ℕ) (terms : List String) : BM25State :=
  let s2 := { s with pending_updates := s.pending_updates ++ [(doc_id, terms)] }
  if s2.batch_size ≤ s2.pending_updates.length then _process_batch s2 else s2

/-- Source `AsyncBM25Index._calculate_idf` (`src/document_processing.py:315-327`)
including both caching layers: the `@lru_cache` decorator (consulted first,
memoising every returned value — including the `0` returned for unseen
terms) and the hand-rolled `idf_cache` dict (which deliberately does not
store the `0` branch).  Returns the value and the updated state. -/
def _calculate_idf (lg : ℚ → ℚ) (s : BM25State) (term : String) : ℚ × BM25State :=
  match alookup term s.lru_idf with
  | some v => (v, s)
  | none =>
    let body : ℚ × BM25State :=
      match alookup term s.idf_cache with
      | some v => (v, s)
      | none =>
        let doc_freq := ((alookup term s.index).getD []).length
        if doc_freq = 0 then (0, s)
        else
          let idf := lg (1 + ((s.doc_count : ℚ) - (doc_freq : ℚ) + 0.5) / ((doc_freq : ℚ) + 0.5))
          (idf, { s with idf_cache := aupdate term idf s.idf_cache })
    (body.1, { body.2 with lru_idf := aupdate term body.1 body.2.lru_idf })

/-- Source `AsyncBM25Index._calculate_term_score`
(`src/document_processing.py:329-339`). -/
def _calculate_term_score (s : BM25State) (tf : ℚ) (doc_length : ℕ) (idf : ℚ)
    (query_tf : ℕ) : ℚ :=
  let numerator := tf * (s.k1 + 1)
  let denominator := tf + s.k1 * (1 - s.b + s.b * (doc_length : ℚ) / s.avg_doc_length)
  idf * numerator / denominator * (query_tf : ℚ)

/-- Source `AsyncBM25Index._process_term` (`src/document_processing.py:279-313`):
per-term document scores (a dict keyed by `doc_id`), plus the state as
mutated by the idf-cache lookups. -/
def _process_term (lg : ℚ → ℚ) (s : BM25State) (term : String) (query_tf : ℕ) :
    List (ℕ × ℚ) × BM25State :=
  let r := _calculate_idf lg s term
  if r.1 = 0 then ([], r.2)
  else
    (((alookup term r.2.index).getD []).foldl
      (fun acc p =>
        if r.2.doc_lengths.length ≤ p.1 then acc
        else aupdate p.1
          (_calculate_term_score r.2 (p.2 : ℚ) (r.2.doc_lengths.getD p.1 0) r.1 query_tf)
          acc)
      [], r.2)

/-- Stable insertion of one scored document into a list already sorted by
non-increasing score: a later arrival goes after every earlier entry with a
score at least as large, exactly the tie behaviour of Python's stable
`sorted(..., reverse=True)`. -/
def insertScoreDesc (p : ℕ × ℚ) : List (ℕ × ℚ) → List (ℕ × ℚ)
  | [] => [p]
  | q :: rest => if p.2 ≤ q.2 then q :: insertScoreDesc p rest else p :: q :: rest

/-- Source `sorted(scores.items(), key=lambda x: x[1], reverse=True)`
(`src/document_processing.py:266-270`): stable descending sort by score. -/
def sortByScoreDesc (l : List (ℕ × ℚ)) : List (ℕ × ℚ) :=
  l.foldl (fun acc p => insertScoreDesc p acc) []

/-- Source `AsyncBM25Index._search_internal` (`src/document_processing.py:224-277`):
one scoring task per distinct query term (in first-occurrence order — the
tasks hold no `await`, so `asyncio.gather` runs them in task order), partial
scores summed per document in a dict, stable-sorted by descending score and
truncated to `top_k`. -/
def _search_internal (lg : ℚ → ℚ) (s : BM25State) (query_terms : List String)
    (top_k : ℕ) : List (ℕ × ℚ) × BM25State :=
  let g := (counter query_terms).foldl
    (fun (acc : List (ℕ × ℚ) × BM25State) tw =>
      let r := _process_term lg acc.2 tw.1 tw.2
      (r.1.foldl (fun sc p => aupdate p.1 ((alookup p.1 sc).getD 0 + p.2) sc) acc.1,
       r.2))
    ([], s)
  ((sortByScoreDesc g.1).take top_k, g.2)

/-- Ascending insertion for `sorted(query_terms)`. -/
def insertStr (x : String) : List String → List String
  | [] => [x]
  | y :: rest => if y < x then y :: insertStr x rest else x :: y :: rest

/-- Python `sorted` on a list of strings. -/
def sortStrings (l : List String) : List String :=
  l.foldl (fun acc x => insertStr x acc) []

/-- Source `cache_key = f"{','.join(sorted(query_terms))}_{top_k}"`
(`src/document_processing.py:173`).  Note the key sorts the full term list,
duplicates included. -/
def cacheKey (query_terms : List String) (top_k : ℕ) : String :=
  String.intercalate "," (sortStrings query_terms) ++ "_" ++ toString top_k

/-- Outcome of the `asyncio.wait_for(self._search_internal(...), timeout)`
call inside `search`: it either completes, or raises `TimeoutError`,
`CancelledError`, or an unexpected internal exception
(`src/document_processing.py:191-214`).  The oracle only matters on the
path that actually reaches the `wait_for` call. -/
inductive SearchOutcome where
  | completed
  | timedOut
  | cancelled
  | errored
deriving DecidableEq

/-- What a `search` call does, seen from the caller.  `deadlocks` is the
cache-miss-with-pending-buffer path: `search` already holds `self._lock`
(`src/document_processing.py:183`) when it awaits `self._process_batch()`
(`:187-188`), which re-acquires the SAME non-reentrant `asyncio.Lock`
(`:102`) — the await blocks forever, so the call never returns a result
list.  A cancellation delivered at that blocked acquire propagates out of
`search` uncaught: `CancelledError` derives from `BaseException`, so the
`except Exception` handlers (`:216`, `:220`) do not catch it, and the
`except asyncio.CancelledError` at `:209` covers only the `wait_for`
block.  Either way no index state is mutated (all `_process_batch`
mutation sits inside the lock it never obtains). -/
inductive SearchBehaviour where
  | returns (results : List (ℕ × ℚ))
  | deadlocks
deriving DecidableEq

/-- Source `AsyncBM25Index.search` (`src/document_processing.py:146-222`): empty
queries return `[]`; the TTL result cache is consulted BEFORE the lock is
taken, so a fresh hit is returned with the pending buffer untouched; on a
miss (or an expired entry) the lock is taken and, if the pending buffer is
non-empty, the attempted flush deadlocks on the re-acquired non-reentrant
lock (`SearchBehaviour.deadlocks`); with an empty buffer the internal
search runs under the `wait_for` whose outcome the oracle decides: a
non-empty completed result is cached under the query key, and the
`wait_for` failure handlers degrade to `[]`.  `now` stands for
`time.time()`.  (A `wait_for` failure may leave idf-cache entries written
by the partially run computation; the model returns the unmutated state,
which no claim distinguishes — the invariants never read the idf
caches.) -/
def search (lg : ℚ → ℚ) (s : BM25State) (now : ℚ) (query_terms : List String)
    (top_k : ℕ) (outcome : SearchOutcome) : SearchBehaviour × BM25State :=
  if query_terms = [] then (.returns [], s)
  else
    let key := cacheKey query_terms top_k
    let hit : Option (List (ℕ × ℚ)) :=
      match alookup key s.search_cache with
      | some tr => if now - tr.1 < s.cache_ttl then some tr.2 else none
      | none => none
    match hit with
    | some results => (.returns results, s)
    | none =>
      if s.pending_updates.isEmpty then
        match outcome with
        | .completed =>
          let r := _search_internal lg s query_terms top_k
          if r.1 = [] then (.returns r.1, r.2)
          else (.returns r.1,
                { r.2 with search_cache := aupdate key (now, r.1) r.2.search_cache })
        | _ => (.returns [], s)
      else
        (.deadlocks, s)

/-- The operations that mutate an index instance; a trace of these from
`initState` generates every reachable index state. -/
inductive Op where
  | add (doc_id : ℕ) (terms : List String)
  | flush
  | query (lg : ℚ → ℚ) (now : ℚ) (terms : List String) (top_k : ℕ)
      (outcome : SearchOutcome)

/-- One mutation step. -/
def step (s : BM25State) : Op → BM25State
  | .add d ts => add_document s d ts
  | .flush => _process_batch s
  | .query lg now ts k o => (search lg s now ts k o).2

/-- Run a trace of operations from the freshly constructed index. -/
def run (ops : List Op) : BM25State :=
  ops.foldl step initState

/-- The documents fed to `add_document` by a trace, in call order. -/
def addsOf : List Op → List (ℕ × List String)
  | [] => []
  | .add d ts :: rest => (d, ts) :: addsOf rest
  | .flush :: rest => addsOf rest
  | .query _ _ _ _ _ :: rest => addsOf rest

/-- Total term-list length of a batch of documents, as a rational. -/
def lensSum (l : List (ℕ × List String)) : ℚ :=
  (l.map fun p => ((p.2.length : ℚ))).sum

/-! ## Chunk processing (`process_document_chunk`, `process_file`) -/

/-- Source `len(chunk.encode('utf-8'))`: the UTF-8 byte length of a string. -/
def utf8Length (s : String) : ℕ :=
  s.data.foldl (fun n c => n + c.utf8Size) 0

/-- Source `os.path.basename` for the POSIX-style paths used by the model: the
suffix after the last `/`. -/
def baseName (p : String) : String :=
  String.mk (p.data.foldl (fun acc c => if c = '/' then [] else acc ++ [c]) [])

/-- The chunk record written for each accepted chunk
(`src/document_processing.py:351-354`, `:369-375`). -/
structure Document where
  id : ℕ
  file_path : String
  content : String
  normalized_content : String
  word_count : ℕ
deriving DecidableEq

/-- Source `ProcessingStats` (`src/document_processing.py:52-61`); the wall-clock
`processing_time` and `memory_usage` fields are not modelled. -/
structure ProcessingStats where
  total_files : ℕ := 0
  processed_files : ℕ := 0
  failed_files : ℕ := 0
  total_chunks : ℕ := 0
  errors : List String := []
deriving DecidableEq

/-- A freshly initialised `ProcessingStats()`. -/
def initStats : ProcessingStats := {}

/-- Source `stats.errors.append(f"Chunk {doc_id} from {file_path}: {str(e)}")`
(`src/document_processing.py:383`). -/
def chunkErr (doc_id : ℕ) (file_path msg : String) : String :=
  s!"Chunk {doc_id} from {file_path}: {msg}"

/-- Source `process_document_chunk` (`src/document_processing.py:341-384`).
A chunk whose UTF-8 size strictly exceeds 1 MiB, or whose token list is
empty, raises `ProcessingError`; the handler records the error in
`stats.errors` and returns `None`, so the caller continues with the next
chunk.  Otherwise the chunk record is built and the terms handed to
`add_document`.  `nrm` stands for `normalize_text`
(`src/document_processing.py:958-968`, pure lower-casing and accent
folding whose character-level detail no claim depends on) and `tok` for the
external `simplemma.simple_tokenizer`. -/
def process_document_chunk (nrm : String → String) (tok : String → List String)
    (chunk : String) (doc_id : ℕ) (file_path processed_folder : String)
    (s : BM25State) (st : ProcessingStats) :
    Option Document × BM25State × ProcessingStats :=
  let chunk_file_path := processed_folder ++ "/" ++ baseName file_path ++ "_" ++ toString doc_id ++ ".md"
  if 1048576 < utf8Length chunk then
    (none, s, { st with errors := st.errors ++ [chunkErr doc_id file_path "Chunk size too large"] })
  else
    let normalized_chunk := nrm chunk
    let words := tok normalized_chunk
    if words = [] then
      (none, s, { st with errors := st.errors ++ [chunkErr doc_id file_path "Empty chunk after processing"] })
    else
      (some { id := doc_id, file_path := chunk_file_path, content := chunk,
              normalized_content := normalized_chunk, word_count := words.length },
       add_document s doc_id words,
       { st with total_chunks := st.total_chunks + 1 })

/-- The chunk loop of `process_file` (`src/document_processing.py:740-754`):
chunk `i` gets id `base + i` where `base = len(bm25_index.doc_lengths)` was
read once before the loop; accepted chunk records are collected in order. -/
def processChunksFrom (nrm : String → String) (tok : String → List String)
    (file_path processed_folder : String) (base : ℕ) :
    ℕ → List String → BM25State → ProcessingStats →
      List Document × BM25State × ProcessingStats
  | _, [], s, st => ([], s, st)
  | i, chunk :: rest, s, st =>
    let r := process_document_chunk nrm tok chunk (base + i) file_path processed_folder s st
    let later := processChunksFrom nrm tok file_path processed_folder base (i + 1) rest r.2.1 r.2.2
    (r.1.toList ++ later.1, later.2)

/-- Source `process_file` restricted to its chunk loop, with the converted text
already split into `chunks` (conversion is an external collaborator). -/
def process_file_chunks (nrm : String → String) (tok : String → List String)
    (chunks : List String) (file_path processed_folder : String)
    (s : BM25State) (st : ProcessingStats) :
    List Document × BM25State × ProcessingStats :=
  processChunksFrom nrm tok file_path processed_folder s.doc_lengths.length 0 chunks s st

/-- Acceptance condition of `process_document_chunk`: at most 1 MiB of
UTF-8 and a non-empty token list. -/
def chunkAccepted (nrm : String → String) (tok : String → List String)
    (chunk : String) : Prop :=
  utf8Length chunk ≤ 1048576 ∧ tok (nrm chunk) ≠ []

instance (nrm : String → String) (tok : String → List String) :
    DecidablePred (chunkAccepted nrm tok) := fun c => by
  unfold chunkAccepted; infer_instance

/-- The `(doc_id, terms)` pairs that the chunk loop hands to
`add_document`: exactly the accepted chunks, with their positional ids. -/
def acceptedPairs (nrm : String → String) (tok : String → List String)
    (base : ℕ) : ℕ → List String → List (ℕ × List String)
  | _, [] => []
  | i, c :: rest =>
    (if chunkAccepted nrm tok c then [(base + i, tok (nrm c))] else []) ++
      acceptedPairs nrm tok base (i + 1) rest

/-- The chunk records returned by the chunk loop. -/
def acceptedDocs (nrm : String → String) (tok : String → List String)
    (file_path processed_folder : String) (base : ℕ) :
    ℕ → List String → List Document
  | _, [] => []
  | i, c :: rest =>
    (if chunkAccepted nrm tok c then
      [{ id := base + i,
         file_path := processed_folder ++ "/" ++ baseName file_path ++ "_" ++ toString (base + i) ++ ".md",
         content := c, normalized_content := nrm c, word_count := (tok (nrm c)).length }]
     else []) ++ acceptedDocs nrm tok file_path processed_folder base (i + 1) rest

/-- The error strings the chunk loop appends, in order. -/
def rejErrors (nrm : String → String) (tok : String → List String)
    (file_path : String) (base : ℕ) : ℕ → List String → List String
  | _, [] => []
  | i, c :: rest =>
    (if 1048576 < utf8Length c then [chunkErr (base + i) file_path "Chunk size too large"]
     else if tok (nrm c) = [] then [chunkErr (base + i) file_path "Empty chunk after processing"]
     else []) ++ rejErrors nrm tok file_path base (i + 1) rest

/-! ## Persistence snapshot and the two-run ingestion scenario -/

/-- The part of the index state that `save_progress` writes to `index.json`
(`src/document_processing.py:814-820`): exactly the four flushed fields —
the `_pending_updates` buffer is NOT saved. -/
structure IndexSnapshot where
  index : List (String × List (ℕ × ℕ))
  doc_lengths : List ℕ
  avg_doc_length : ℚ
  doc_count : ℕ
deriving DecidableEq

/-- What `save_progress` persists of a live index. -/
def saveIndexSnapshot (s : BM25State) : IndexSnapshot where
  index := s.index
  doc_lengths := s.doc_lengths
  avg_doc_length := s.avg_doc_length
  doc_count := s.doc_count

/-- Source `load_saved_state` (`src/document_processing.py:502-531`): a fresh
`AsyncBM25Index()` whose four persisted fields are overwritten from the
snapshot. -/
def loadIndexSnapshot (sn : IndexSnapshot) : BM25State :=
  { initState with index := sn.index, doc_lengths := sn.doc_lengths,
                   avg_doc_length := sn.avg_doc_length, doc_count := sn.doc_count }

/-- First ingestion run of `process_documents`
(`src/document_processing.py:533-688`) over a fresh state folder: every
file is processed through the chunk loop against one shared index; the
snapshot persisted by the final `save_progress` call (after the last batch)
is `saveIndexSnapshot` of the returned state.  Files are modelled as
`(path, chunks)` with conversion and `split_into_chunks` already applied;
batch grouping of files does not change the fold order. -/
def ingestRun1 (nrm : String → String) (tok : String → List String)
    (processed_folder : String) (files : List (String × List String)) :
    List Document × BM25State × ProcessingStats :=
  files.foldl
    (fun acc f =>
      let r := process_file_chunks nrm tok f.2 f.1 processed_folder acc.2.1 acc.2.2
      (acc.1 ++ r.1, r.2))
    ([], initState, initStats)

/-- Second ingestion run of `process_documents` over the SAME, unchanged
folder.  Per-file metadata (mtime, size, checksum) matches for every file,
so either the early-return path fires (`src/document_processing.py:551-589`:
documents non-empty and `doc_count > 0`, no file needs processing) or the
fall-through scan finds `all_files == []` and the batch loop never runs
(`:594-676`); both paths return the loaded documents and the loaded index
unmodified, performing zero chunking and zero `add_document` calls. -/
def ingestRun2 (docs : List Document) (sn : IndexSnapshot) :
    List Document × BM25State :=
  (docs, loadIndexSnapshot sn)

/-! ## Context-search combination (`search_for_context`) -/

/-- One entry of `all_results` in `search_for_context`
(`src/question_processing.py:400-440`). -/
structure ContextResult where
  file_path : String
  score : ℚ
  query_matches : ℚ
  exact_match : Bool
  original_match : Bool
deriving DecidableEq

/-- The sort key `(x['original_match'] and x['exact_match'], x['score'])`
compared the Python-tuple way, as a strict order (`bool` first, score
second). -/
def ctxKeyLt (a b : ContextResult) : Prop :=
  (if a.original_match && a.exact_match then (1 : ℕ) else 0) <
      (if b.original_match && b.exact_match then (1 : ℕ) else 0) ∨
    ((if a.original_match && a.exact_match then (1 : ℕ) else 0) =
        (if b.original_match && b.exact_match then (1 : ℕ) else 0) ∧
      a.score < b.score)

instance : DecidableRel ctxKeyLt := fun a b => by
  unfold ctxKeyLt; infer_instance

/-- Stable descending insertion for
`sorted(all_results, key=..., reverse=True)`
(`src/question_processing.py:443-445`): a later arrival is placed after
every earlier entry whose key is not strictly smaller. -/
def insertCtxDesc (p : ContextResult) : List ContextResult → List ContextResult
  | [] => [p]
  | q :: rest => if ctxKeyLt q p then p :: q :: rest else q :: insertCtxDesc p rest

/-- The sorted result list of `search_for_context`. -/
def sortCtxDesc (l : List ContextResult) : List ContextResult :=
  l.foldl (fun acc r => insertCtxDesc r acc) []

/-- The selection loop of `search_for_context`
(`src/question_processing.py:448-459`): skip entries under the
`min_score = 10.0` threshold, skip file paths already seen, keep the rest
and stop as soon as 5 results are kept. -/
def combineLoop : List ContextResult → List String → List ContextResult →
    List ContextResult
  | [], _, unique => unique
  | r :: rest, seen, unique =>
    if r.score < 10 then combineLoop rest seen unique
    else if r.file_path ∈ seen then combineLoop rest seen unique
    else
      let u2 := unique ++ [r]
      if 5 ≤ u2.length then u2 else combineLoop rest (seen ++ [r.file_path]) u2

/-- The deduplicated, thresholded, truncated result records. -/
def dedupTopResults (results : List ContextResult) : List ContextResult :=
  combineLoop (sortCtxDesc results) [] []

/-- Source `relevant_files` (`src/question_processing.py:462`): the file paths of
the kept records. -/
def relevantFiles (results : List ContextResult) : List String :=
  (dedupTopResults results).map (fun r => r.file_path)

/-- A concrete strictly monotone stand-in for `math.log` on the idf
argument, used wherever a closed theorem needs the scoring pipeline
evaluated on a concrete instance.  (Score EQUALITIES exhibited with it are
not artefacts: identical score expressions are equal under every `lg`.) -/
def lgId : ℚ → ℚ := fun q => q

/-- A concrete chunk of 1048577 one-byte characters: one byte over the
1 MiB limit of `process_document_chunk`. -/
def bigChunk : String := String.mk (List.replicate 1048577 'a')

/-! ## Invariants used by the claims -/

/-- Exact-running-mean invariant: with `adds` the documents handed to
`add_document` so far, `avg_doc_length * doc_count` plus the lengths still
sitting in the pending buffer accounts for every added term list, and
`doc_count` plus the buffer size accounts for every added document. -/
def MeanInv (adds : List (ℕ × List String)) (s : BM25State) : Prop :=
  s.avg_doc_length * (s.doc_count : ℚ) + lensSum s.pending_updates = lensSum adds ∧
    s.doc_count + s.pending_updates.length = adds.length

/-- Contiguity invariant for gap-free traces: `doc_lengths` has exactly one
slot per counted document and the pending buffer continues the id range. -/
def ContigInv (m : ℕ) (s : BM25State) : Prop :=
  s.doc_lengths.length = s.doc_count ∧
    s.pending_updates.map Prod.fst = List.range' s.doc_count s.pending_updates.length ∧
    s.doc_count + s.pending_updates.length = m

/-- Search-cache invariant: no cached entry stores an empty result list. -/
def CacheOK (s : BM25State) : Prop :=
  ∀ p ∈ s.search_cache, p.2.2 ≠ []

/-- What claim C7 asserts of the chunk loop when chunk `i` is oversized:
its error is recorded, no returned document and no `add_document` call
carries its id, the final state is exactly the fold of the accepted
`(doc_id, terms)` pairs, and every other, itself acceptable chunk still
yields a document. -/
def ChunkTooLargeSpec (nrm : String → String) (tok : String → List String)
    (chunks : List String) (i : ℕ) (file_path processed_folder : String)
    (s : BM25State) (st : ProcessingStats) : Prop :=
  chunkErr (s.doc_lengths.length + i) file_path "Chunk size too large" ∈
      (process_file_chunks nrm tok chunks file_path processed_folder s st).2.2.errors ∧
    (∀ d ∈ (process_file_chunks nrm tok chunks file_path processed_folder s st).1,
      d.id ≠ s.doc_lengths.length + i) ∧
    (∀ p ∈ acceptedPairs nrm tok s.doc_lengths.length 0 chunks,
      p.1 ≠ s.doc_lengths.length + i) ∧
    (process_file_chunks nrm tok chunks file_path processed_folder s st).2.1 =
      (acceptedPairs nrm tok s.doc_lengths.length 0 chunks).foldl
        (fun s2 p => add_document s2 p.1 p.2) s ∧
    ∀ j (hj : j < chunks.length), j ≠ i →
      chunkAccepted nrm tok (chunks.get ⟨j, hj⟩) →
        ∃ d ∈ (process_file_chunks nrm tok chunks file_path processed_folder s st).1,
          d.id = s.doc_lengths.length + j

/-- Equality of every index-state field except the two idf caches: the
scoring pipeline of a search mutates only `idf_cache` and `lru_idf`. -/
def FrameEq (a b : BM25State) : Prop :=
  a.k1 = b.k1 ∧ a.b = b.b ∧ a.cache_size = b.cache_size ∧ a.index = b.index ∧
    a.doc_lengths = b.doc_lengths ∧ a.avg_doc_length = b.avg_doc_length ∧
    a.doc_count = b.doc_count ∧ a.term_cache = b.term_cache ∧
    a.batch_size = b.batch_size ∧ a.pending_updates = b.pending_updates ∧
    a.search_cache = b.search_cache ∧ a.cache_ttl = b.cache_ttl

/-- Equality of the core statistics fields that the run-level invariants
read. -/
def CoreEq (a b : BM25State) : Prop :=
  a.index = b.index ∧ a.doc_lengths = b.doc_lengths ∧
    a.avg_doc_length = b.avg_doc_length ∧ a.doc_count = b.doc_count ∧
    a.pending_updates = b.pending_updates

end Clipbrd

unseal Rat.add Rat.mul Rat.inv Rat.sub Rat.ofScientific

/-! ## Proofs

Helper lemmas first, then one theorem per claim (with witnesses and
counterexamples where required). -/

namespace Clipbrd

/-- The chunk loop equals: the accepted chunk records, the fold of
`add_document` over the accepted `(doc_id, terms)` pairs, and the stats
extended by one error per rejected chunk and one `total_chunks` tick per
accepted one.  (The accept/reject decision for a chunk depends only on the
chunk itself, never on the threaded state.) -/
theorem processChunksFrom_eq (nrm : String → String) (tok : String → List String)
    (fp pf : String) (base : ℕ) (chunks : List String) :
    ∀ (i : ℕ) (s : BM25State) (st : ProcessingStats),
      processChunksFrom nrm tok fp pf base i chunks s st =
        (acceptedDocs nrm tok fp pf base i chunks,
         (acceptedPairs nrm tok base i chunks).foldl (fun s2 p => add_document s2 p.1 p.2) s,
         { st with
             total_chunks := st.total_chunks + (acceptedPairs nrm tok base i chunks).length,
             errors := st.errors ++ rejErrors nrm tok fp base i chunks }) := by
  induction chunks with
  | nil => intro i s st; simp [processChunksFrom, acceptedDocs, acceptedPairs, rejErrors]
  | cons c rest ih =>
    intro i s st
    by_cases hbig : 1048576 < utf8Length c
    · have hacc : ¬ chunkAccepted nrm tok c := fun h => absurd h.1 (not_le.mpr hbig)
      simp [processChunksFrom, process_document_chunk, acceptedDocs, acceptedPairs,
            rejErrors, hbig, hacc, ih]
    · by_cases hempty : tok (nrm c) = []
      · have hacc : ¬ chunkAccepted nrm tok c := fun h => h.2 hempty
        simp [processChunksFrom, process_document_chunk, acceptedDocs, acceptedPairs,
              rejErrors, hbig, hempty, hacc, ih]
      · have hacc : chunkAccepted nrm tok c := ⟨not_lt.mp hbig, hempty⟩
        simp [processChunksFrom, process_document_chunk, acceptedDocs, acceptedPairs,
              rejErrors, hbig, hempty, hacc, ih, Nat.add_assoc, Nat.add_comm]

/-- An oversized chunk leaves its error string in `rejErrors`. -/
theorem rejErrors_mem_big (nrm : String → String) (tok : String → List String)
    (fp : String) (base : ℕ) (chunks : List String) :
    ∀ (i j : ℕ) (hj : j < chunks.length),
      1048576 < utf8Length (chunks.get ⟨j, hj⟩) →
      chunkErr (base + (i + j)) fp "Chunk size too large" ∈
        rejErrors nrm tok fp base i chunks := by
  induction chunks with
  | nil => intro i j hj; exact absurd hj (by simp)
  | cons c rest ih =>
    intro i j hj hbig
    cases j with
    | zero =>
      simp only [List.get] at hbig
      simp [rejErrors, hbig]
    | succ j2 =>
      have hj2 : j2 < rest.length := by simpa using hj
      have hmem := ih (i + 1) j2 hj2 (by simpa using hbig)
      have harith : base + (i + (j2 + 1)) = base + (i + 1 + j2) := by omega
      rw [harith]
      unfold rejErrors
      exact List.mem_append_right _ hmem

/-- Every returned chunk record comes from an accepted chunk at its
position. -/
theorem acceptedDocs_id (nrm : String → String) (tok : String → List String)
    (fp pf : String) (base : ℕ) (chunks : List String) :
    ∀ (i : ℕ) (d : Document), d ∈ acceptedDocs nrm tok fp pf base i chunks →
      ∃ j, ∃ hj : j < chunks.length,
        d.id = base + (i + j) ∧ chunkAccepted nrm tok (chunks.get ⟨j, hj⟩) := by
  induction chunks with
  | nil => intro i d hd; exact absurd hd (by simp [acceptedDocs])
  | cons c rest ih =>
    intro i d hd
    unfold acceptedDocs at hd
    rcases List.mem_append.mp hd with h | h
    · by_cases hacc : chunkAccepted nrm tok c
      · simp only [if_pos hacc, List.mem_singleton] at h
        exact ⟨0, by simp, by simp [h], by simpa using hacc⟩
      · simp [if_neg hacc] at h
    · obtain ⟨j, hj, hid, hacc⟩ := ih (i + 1) d h
      exact ⟨j + 1, by simpa using Nat.succ_lt_succ hj,
        by rw [hid]; omega, by simpa using hacc⟩

/-- Every `(doc_id, terms)` pair handed to `add_document` comes from an
accepted chunk at its position. -/
theorem acceptedPairs_fst (nrm : String → String) (tok : String → List String)
    (base : ℕ) (chunks : List String) :
    ∀ (i : ℕ) (p : ℕ × List String), p ∈ acceptedPairs nrm tok base i chunks →
      ∃ j, ∃ hj : j < chunks.length,
        p.1 = base + (i + j) ∧ chunkAccepted nrm tok (chunks.get ⟨j, hj⟩) := by
  induction chunks with
  | nil => intro i p hp; exact absurd hp (by simp [acceptedPairs])
  | cons c rest ih =>
    intro i p hp
    unfold acceptedPairs at hp
    rcases List.mem_append.mp hp with h | h
    · by_cases hacc : chunkAccepted nrm tok c
      · simp only [if_pos hacc, List.mem_singleton] at h
        exact ⟨0, by simp, by simp [h], by simpa using hacc⟩
      · simp [if_neg hacc] at h
    · obtain ⟨j, hj, hid, hacc⟩ := ih (i + 1) p h
      exact ⟨j + 1, by simpa using Nat.succ_lt_succ hj,
        by rw [hid]; omega, by simpa using hacc⟩

/-- Conversely, every accepted chunk yields a record with its id. -/
theorem acceptedDocs_exists (nrm : String → String) (tok : String → List String)
    (fp pf : String) (base : ℕ) (chunks : List String) :
    ∀ (i j : ℕ) (hj : j < chunks.length),
      chunkAccepted nrm tok (chunks.get ⟨j, hj⟩) →
      ∃ d ∈ acceptedDocs nrm tok fp pf base i chunks, d.id = base + (i + j) := by
  induction chunks with
  | nil => intro i j hj; exact absurd hj (by simp)
  | cons c rest ih =>
    intro i j hj hacc
    cases j with
    | zero =>
      simp only [List.get] at hacc
      refine ⟨⟨base + i, pf ++ "/" ++ baseName fp ++ "_" ++ toString (base + i) ++ ".md",
               c, nrm c, (tok (nrm c)).length⟩, ?_, rfl⟩
      unfold acceptedDocs
      exact List.mem_append_left _ (by simp [if_pos hacc])
    | succ j2 =>
      have hj2 : j2 < rest.length := by simpa using hj
      obtain ⟨d, hd, hid⟩ := ih (i + 1) j2 hj2 (by simpa using hacc)
      refine ⟨d, ?_, ?_⟩
      · unfold acceptedDocs
        exact List.mem_append_right _ hd
      · rw [hid]; omega

/-- Claim C7 (confirmed).  If chunk `i` of a file exceeds 1 MiB of UTF-8 it
is rejected: its `Chunk size too large` error is recorded in the run error
list, no returned document and no `add_document` call carries its id, the
resulting index state is exactly the fold of the accepted sibling chunks,
and every sibling chunk that is itself acceptable (at most 1 MiB, non-empty
token list) is still processed and indexed — the rejection never aborts the
chunk loop. -/
theorem chunk_too_large_isolated (nrm : String → String) (tok : String → List String)
    (chunks : List String) (i : ℕ) (file_path processed_folder : String)
    (s : BM25State) (st : ProcessingStats) (hi : i < chunks.length)
    (hbig : 1048576 < utf8Length (chunks.get ⟨i, hi⟩)) :
    ChunkTooLargeSpec nrm tok chunks i file_path processed_folder s st := by
  have hrej : ¬ chunkAccepted nrm tok (chunks.get ⟨i, hi⟩) :=
    fun h => absurd h.1 (not_le.mpr hbig)
  have heq := processChunksFrom_eq nrm tok file_path processed_folder
    s.doc_lengths.length chunks 0 s st
  unfold ChunkTooLargeSpec process_file_chunks
  rw [heq]
  refine ⟨?_, ?_, ?_, rfl, ?_⟩
  · have hmem := rejErrors_mem_big nrm tok file_path s.doc_lengths.length chunks 0 i hi hbig
    rw [Nat.zero_add] at hmem
    exact List.mem_append_right _ hmem
  · intro d hd hid
    obtain ⟨j, hj, hidj, hacc⟩ :=
      acceptedDocs_id nrm tok file_path processed_folder s.doc_lengths.length chunks 0 d hd
    rw [Nat.zero_add] at hidj
    have hji : j = i := by omega
    subst hji
    exact hrej hacc
  · intro p hp hid
    obtain ⟨j, hj, hidj, hacc⟩ := acceptedPairs_fst nrm tok s.doc_lengths.length chunks 0 p hp
    rw [Nat.zero_add] at hidj
    have hji : j = i := by omega
    subst hji
    exact hrej hacc
  · intro j hj hne hacc
    obtain ⟨d, hd, hid⟩ :=
      acceptedDocs_exists nrm tok file_path processed_folder s.doc_lengths.length chunks 0 j hj hacc
    rw [Nat.zero_add] at hid
    exact ⟨d, hd, hid⟩


/-- Folding the byte counter over `n` one-byte characters adds `n`. -/
theorem utf8_foldl_replicate_a (n : ℕ) :
    ∀ a : ℕ, (List.replicate n 'a').foldl (fun m c => m + c.utf8Size) a = a + n := by
  induction n with
  | zero => intro a; simp
  | succ k ih =>
    intro a
    rw [List.replicate_succ, List.foldl_cons]
    simp only [show Char.utf8Size 'a' = 1 from rfl]
    rw [ih]
    omega

/-- The chunk `bigChunk` measures exactly one byte over the limit. -/
theorem utf8Length_bigChunk : utf8Length bigChunk = 1048577 := by
  show (List.replicate 1048577 'a').foldl (fun n c => n + c.utf8Size) 0 = 1048577
  rw [utf8_foldl_replicate_a]

/-- Witness for C7: a concrete three-chunk file whose middle chunk is one
byte over the 1 MiB limit, processed with the identity normaliser and a
one-token tokenizer. -/
theorem chunk_too_large_isolated_witness :
    (1 < (["ok", bigChunk, "also ok"] : List String).length) ∧
    1048576 < utf8Length bigChunk ∧
    ChunkTooLargeSpec id (fun c => [c]) ["ok", bigChunk, "also ok"] 1
      "f.txt" "p" initState initStats := by
  have hlen : 1 < (["ok", bigChunk, "also ok"] : List String).length := by
    simp
  have hbig : 1048576 < utf8Length bigChunk := by
    rw [utf8Length_bigChunk]; norm_num
  exact ⟨hlen, hbig,
    chunk_too_large_isolated id (fun c => [c]) ["ok", bigChunk, "also ok"] 1
      "f.txt" "p" initState initStats hlen hbig⟩

/-- Claim C1 (code bug, failing input).  A fresh index is asked for
`idf("x")` while `"x"` is unseen — this first call correctly returns 0.
The document `0 ↦ ["x"]` is then added and flushed, after which `"x"` owns
the posting list `[(0, 1)]`.  The repeated call `idf("x")` STILL returns 0:
the `@lru_cache(maxsize=10000)` wrapped around `_calculate_idf` memoised
the unseen-term 0 (unlike the hand-rolled `idf_cache`, which deliberately
skips caching that branch), while the claim requires a positive idf once a
posting exists.  The equations hold for every model `lg` of `math.log`
because the stale zero is served from the cache without `lg` ever being
applied. -/
theorem idf_stale_zero_code_bug (lg : ℚ → ℚ) :
    (_calculate_idf lg initState "x").1 = 0 ∧
    (alookup "x"
        (_process_batch (add_document (_calculate_idf lg initState "x").2 0 ["x"])).index)
      = some [(0, 1)] ∧
    (_calculate_idf lg
        (_process_batch (add_document (_calculate_idf lg initState "x").2 0 ["x"])) "x").1
      = 0 :=
  ⟨rfl, rfl, rfl⟩

/-- Claim C3 (counterexample).  The trace `add_document(1, ["a"]); flush()`
— doc id 0 was skipped, as happens when `process_file` rejects a chunk —
pads `doc_lengths` to the flushed id, giving it length 2 while
`doc_count = 1`: after a completed flush the two disagree, refuting the
claim for sequences with id gaps. -/
theorem doc_lengths_gap_cex :
    (run [Op.add 1 ["a"], Op.flush]).doc_lengths.length = 2 ∧
    (run [Op.add 1 ["a"], Op.flush]).doc_count = 1 ∧
    (run [Op.add 1 ["a"], Op.flush]).doc_lengths.length ≠
      (run [Op.add 1 ["a"], Op.flush]).doc_count := by
  decide

/-- Claim C4 (counterexample).  Index `doc 0 = ["b"]` and `doc 1 = ["a"]`
(flushed), query `["a", "b"]`: both documents score identically by
symmetry, and the stable sort leaves them in score-accumulation order —
term `"a"` is processed first and contributes doc 1 — so the tied results
come back as `[(1, s), (0, s)]`, with doc ids DESCENDING: ties are not
broken by ascending `doc_id`.  (The tie is not an artefact of the concrete
`lgId` stand-in: the two score expressions are identical for every `lg`.) -/
theorem search_tiebreak_cex :
    (_search_internal lgId (run [Op.add 0 ["b"], Op.add 1 ["a"], Op.flush]) ["a", "b"] 10).1
      = [(1, 2), (0, 2)] ∧
    ¬ List.Pairwise (fun a b : ℕ × ℚ => b.2 < a.2 ∨ (b.2 = a.2 ∧ a.1 < b.1))
      (_search_internal lgId (run [Op.add 0 ["b"], Op.add 1 ["a"], Op.flush]) ["a", "b"] 10).1 := by
  decide

/-- Claim C5 (counterexample).  Document 0 is added and flushed (the flush
step is the automatic `_process_batch` that `add_document` itself performs
once the buffer reaches `_batch_size`); a first search on `["x"]` then
runs with an EMPTY pending buffer, so it computes and caches its
one-document result without ever entering the deadlocking branch.  Next
`add_document(1, ["x"])` buffers a second document, and a second search on
`["x"]` within the TTL answers straight from the cache: the returned list
is exactly the stale `[(0, 4/3)]` — doc 1 absent — and the pending buffer
still holds doc 1 after the call.  The cache lookup happened BEFORE
(indeed instead of) any flush, refuting the claimed flush-then-lookup
order; every search in the trace is realizable (the first is a miss with
no pending updates, the second a pure cache hit that returns before the
lock is taken). -/
theorem search_cache_before_flush_cex :
    ((search lgId
        (run [Op.add 0 ["x"], Op.flush, Op.query lgId 0 ["x"] 10 .completed, Op.add 1 ["x"]])
        1 ["x"] 10 .completed).1 = SearchBehaviour.returns [(0, 4/3)]) ∧
    (search lgId
        (run [Op.add 0 ["x"], Op.flush, Op.query lgId 0 ["x"] 10 .completed, Op.add 1 ["x"]])
        1 ["x"] 10 .completed).2.pending_updates = [(1, ["x"])] := by
  decide

/-- Claim C8 (counterexample).  Two results share the file path `"p"`: one
with score 12 flagged as an original-query exact match, one with score 50
without the flag.  The sort key ranks the flag before the score, so
deduplication keeps the score-12 record and drops the score-50 one — the
kept chunk is NOT the highest-scoring chunk of its file. -/
theorem context_dedup_not_highest_cex :
    dedupTopResults [⟨"p", 12, 0, true, true⟩, ⟨"p", 50, 0, false, false⟩]
      = [⟨"p", 12, 0, true, true⟩] ∧
    relevantFiles [⟨"p", 12, 0, true, true⟩, ⟨"p", 50, 0, false, false⟩] = ["p"] ∧
    ((12 : ℚ) < 50) := by
  decide

/-- Claim C9 (code bug, failing input).  One file producing a single
acceptable chunk is ingested; `process_documents` saves its snapshot
without flushing the pending buffer, so `index.json` records
`doc_count = 0` while `documents.json` records the chunk.  The unchanged
re-run returns the loaded state: the documents lists agree, but the first
run's returned index still holds the chunk in its pending buffer (one
flush away from being searchable, `doc_count` becomes 1) whereas the
second run's index has lost it for good (`doc_count` stays 0 after a
flush, and the chunk is never re-chunked because the file metadata is
unchanged).  The two index states differ, refuting idempotence. -/
theorem ingest_rerun_loses_pending :
    (ingestRun2 (ingestRun1 id (fun c => [c]) "p" [("f.txt", ["hello world"])]).1
        (saveIndexSnapshot (ingestRun1 id (fun c => [c]) "p" [("f.txt", ["hello world"])]).2.1)).1
      = (ingestRun1 id (fun c => [c]) "p" [("f.txt", ["hello world"])]).1 ∧
    (_process_batch
        (ingestRun1 id (fun c => [c]) "p" [("f.txt", ["hello world"])]).2.1).doc_count = 1 ∧
    (_process_batch
        (ingestRun2 (ingestRun1 id (fun c => [c]) "p" [("f.txt", ["hello world"])]).1
          (saveIndexSnapshot
            (ingestRun1 id (fun c => [c]) "p" [("f.txt", ["hello world"])]).2.1)).2).doc_count
      = 0 ∧
    (ingestRun2 (ingestRun1 id (fun c => [c]) "p" [("f.txt", ["hello world"])]).1
        (saveIndexSnapshot (ingestRun1 id (fun c => [c]) "p" [("f.txt", ["hello world"])]).2.1)).2
      ≠ (ingestRun1 id (fun c => [c]) "p" [("f.txt", ["hello world"])]).2.1 := by
  decide

/-- The value of `lensSum` on the empty batch. -/
@[simp] theorem lensSum_nil : lensSum [] = 0 := rfl

/-- The value of `lensSum` on a cons. -/
@[simp] theorem lensSum_cons (d : ℕ × List String) (l : List (ℕ × List String)) :
    lensSum (d :: l) = (d.2.length : ℚ) + lensSum l := by
  simp [lensSum]

/-- The incremental update in normalised form:
`avg' = (avg*n + len) / (n+1)` over exact rationals. -/
theorem flushDoc_avg (s : BM25State) (d : ℕ × List String) :
    (flushDoc s d).avg_doc_length =
      (s.avg_doc_length * (s.doc_count : ℚ) + (d.2.length : ℚ)) / ((s.doc_count : ℚ) + 1) := by
  show (s.avg_doc_length * (((s.doc_count + 1 : ℕ) : ℚ) - 1) + (d.2.length : ℚ)) /
      ((s.doc_count + 1 : ℕ) : ℚ) = _
  push_cast
  ring_nf

/-- Flushing a batch of documents: `doc_count` grows by the batch size,f
`avg_doc_length * doc_count` grows by the total batch length (the exact
running mean), and the pending buffer / search cache are untouched by the
per-document step. -/
theorem foldl_flushDoc_stats (l : List (ℕ × List String)) :
    ∀ s : BM25State,
      (l.foldl flushDoc s).doc_count = s.doc_count + l.length ∧
      (l.foldl flushDoc s).avg_doc_length * (((l.foldl flushDoc s).doc_count : ℕ) : ℚ) =
        s.avg_doc_length * (s.doc_count : ℚ) + lensSum l ∧
      (l.foldl flushDoc s).pending_updates = s.pending_updates ∧
      (l.foldl flushDoc s).search_cache = s.search_cache := by
  induction l with
  | nil => intro s; simp
  | cons d rest ih =>
    intro s
    obtain ⟨h1, h2, h3, h4⟩ := ih (flushDoc s d)
    rw [List.foldl_cons]
    have hcount : (flushDoc s d).doc_count = s.doc_count + 1 := rfl
    refine ⟨?_, ?_, ?_, ?_⟩
    · rw [h1, hcount, List.length_cons]; omega
    · rw [h2, flushDoc_avg, hcount]
      have hne : ((s.doc_count : ℚ) + 1) ≠ 0 := by positivity
      push_cast
      rw [div_mul_cancel₀ _ hne, lensSum_cons]
      ring
    · rw [h3]; rfl
    · rw [h4]; rfl

/-- Effect of `_process_batch`: the whole pending buffer is folded into the
statistics and the buffer is cleared; the search cache is untouched. -/
theorem process_batch_stats (s : BM25State) :
    (_process_batch s).doc_count = s.doc_count + s.pending_updates.length ∧
    (_process_batch s).avg_doc_length * (((_process_batch s).doc_count : ℕ) : ℚ) =
      s.avg_doc_length * (s.doc_count : ℚ) + lensSum s.pending_updates ∧
    (_process_batch s).pending_updates = [] ∧
    (_process_batch s).search_cache = s.search_cache := by
  obtain ⟨h1, h2, h3, h4⟩ := foldl_flushDoc_stats s.pending_updates s
  exact ⟨h1, h2, rfl, h4⟩

/-- The relation `FrameEq` is reflexive. -/
theorem frameEq_refl (a : BM25State) : FrameEq a a := by
  unfold FrameEq; exact ⟨rfl, rfl, rfl, rfl, rfl, rfl, rfl, rfl, rfl, rfl, rfl, rfl⟩

/-- The relation `FrameEq` is transitive. -/
theorem frameEq_trans {a b c : BM25State} (h1 : FrameEq a b) (h2 : FrameEq b c) :
    FrameEq a c := by
  unfold FrameEq at h1 h2 ⊢
  obtain ⟨a1, a2, a3, a4, a5, a6, a7, a8, a9, a10, a11, a12⟩ := h1
  obtain ⟨b1, b2, b3, b4, b5, b6, b7, b8, b9, b10, b11, b12⟩ := h2
  exact ⟨a1.trans b1, a2.trans b2, a3.trans b3, a4.trans b4, a5.trans b5, a6.trans b6,
         a7.trans b7, a8.trans b8, a9.trans b9, a10.trans b10, a11.trans b11, a12.trans b12⟩

/-- Frame property: `_calculate_idf` only writes the two idf caches. -/
theorem calculate_idf_frame (lg : ℚ → ℚ) (s : BM25State) (term : String) :
    FrameEq (_calculate_idf lg s term).2 s := by
  unfold _calculate_idf FrameEq
  rcases h1 : alookup term s.lru_idf with _ | v
  · simp only [h1]
    rcases h2 : alookup term s.idf_cache with _ | w
    · simp only [h2]
      split_ifs with h3 <;> simp
    · simp [h2]
  · simp [h1]

/-- Frame property: `_process_term` returns the state produced by its idf lookup. -/
theorem process_term_state (lg : ℚ → ℚ) (s : BM25State) (term : String) (qtf : ℕ) :
    (_process_term lg s term qtf).2 = (_calculate_idf lg s term).2 := by
  dsimp only [_process_term]
  split <;> rfl

/-- The whole scoring fold of `_search_internal` only writes the idf
caches. -/
theorem search_internal_frame (lg : ℚ → ℚ) (qts : List String) (k : ℕ) (s : BM25State) :
    FrameEq (_search_internal lg s qts k).2 s := by
  unfold _search_internal
  show FrameEq ((counter qts).foldl _ ([], s)).2 s
  generalize counter qts = tws
  have main : ∀ (tws : List (String × ℕ)) (acc : List (ℕ × ℚ) × BM25State),
      FrameEq ((tws.foldl (fun acc tw =>
        let r := _process_term lg acc.2 tw.1 tw.2
        (r.1.foldl (fun sc p => aupdate p.1 ((alookup p.1 sc).getD 0 + p.2) sc) acc.1,
         r.2)) acc).2) acc.2 := by
    intro tws
    induction tws with
    | nil => intro acc; exact frameEq_refl _
    | cons tw rest ih =>
      intro acc
      rw [List.foldl_cons]
      refine frameEq_trans (ih _) ?_
      show FrameEq (_process_term lg acc.2 tw.1 tw.2).2 acc.2
      rw [process_term_state]
      exact calculate_idf_frame lg acc.2 tw.1
  exact main tws ([], s)

/-- The relation `CoreEq` is reflexive. -/
theorem coreEq_refl (a : BM25State) : CoreEq a a := by
  unfold CoreEq; exact ⟨rfl, rfl, rfl, rfl, rfl⟩

/-- The relation `CoreEq` is transitive. -/
theorem coreEq_trans {a b c : BM25State} (h1 : CoreEq a b) (h2 : CoreEq b c) :
    CoreEq a c := by
  unfold CoreEq at h1 h2 ⊢
  obtain ⟨a1, a2, a3, a4, a5⟩ := h1
  obtain ⟨b1, b2, b3, b4, b5⟩ := h2
  exact ⟨a1.trans b1, a2.trans b2, a3.trans b3, a4.trans b4, a5.trans b5⟩

/-- The relation `FrameEq` is stronger than `CoreEq`. -/
theorem coreEq_of_frameEq {a b : BM25State} (h : FrameEq a b) : CoreEq a b := by
  unfold FrameEq at h; unfold CoreEq; tauto

/-- The search-cache component of a `FrameEq`. -/
theorem frameEq_search_cache {a b : BM25State} (h : FrameEq a b) :
    a.search_cache = b.search_cache := by
  unfold FrameEq at h; tauto

/-- Frame property: `_process_batch` leaves the search cache alone. -/
theorem process_batch_search_cache (s : BM25State) :
    (_process_batch s).search_cache = s.search_cache :=
  (process_batch_stats s).2.2.2

/-- An empty query returns immediately. -/
theorem search_empty (lg : ℚ → ℚ) (s : BM25State) (now : ℚ) (k : ℕ)
    (o : SearchOutcome) : search lg s now [] k o = (.returns [], s) := rfl

/-- Helper: on a fresh cache hit, `search` returns the cached result list
and leaves the whole state untouched. -/
theorem search_hit_state_unchanged (lg : ℚ → ℚ) (s : BM25State) (now : ℚ)
    (qts : List String) (k : ℕ) (o : SearchOutcome) (ts : ℚ) (res : List (ℕ × ℚ))
    (hq : qts ≠ [])
    (hhit : alookup (cacheKey qts k) s.search_cache = some (ts, res))
    (hfresh : now - ts < s.cache_ttl) :
    search lg s now qts k o = (.returns res, s) := by
  unfold search
  rw [if_neg hq]
  simp only [hhit, hfresh, if_true]

/-- Claim C5, amended.  `search` consults the TTL result cache BEFORE
taking the lock: on a fresh cache hit it returns the cached result list
and leaves the whole state — the unflushed pending buffer included —
untouched, so a search issued after `add_document` calls can answer from a
cache entry computed without those documents.  Only on a miss or an
expired entry is the lock taken; the attempted flush there deadlocks
whenever the pending buffer is non-empty (`search_miss_pending_deadlocks`:
the non-reentrant `asyncio.Lock` held at `src/document_processing.py:183`
is re-acquired at `:102`), so a miss actually flushes nothing and computes
only when the buffer is already empty. -/
theorem search_checks_cache_before_flush (lg : ℚ → ℚ) (s : BM25State) (now : ℚ)
    (qts : List String) (k : ℕ) (o : SearchOutcome) (ts : ℚ) (res : List (ℕ × ℚ))
    (hq : qts ≠ [])
    (hhit : alookup (cacheKey qts k) s.search_cache = some (ts, res))
    (hfresh : now - ts < s.cache_ttl) :
    search lg s now qts k o = (.returns res, s) :=
  search_hit_state_unchanged lg s now qts k o ts res hq hhit hfresh

/-- Witness for the amended C5: a state whose cache holds a fresh entry for
`"x"`/`top_k = 10`; the search returns it and changes nothing. -/
theorem search_checks_cache_before_flush_witness :
    ((["x"] : List String) ≠ []) ∧
    alookup (cacheKey ["x"] 10)
        ({ initState with
            search_cache := [(cacheKey ["x"] 10, (0, [(0, 1)]))] } : BM25State).search_cache
      = some (0, [(0, 1)]) ∧
    ((1 : ℚ) - 0 <
      ({ initState with
          search_cache := [(cacheKey ["x"] 10, (0, [(0, 1)]))] } : BM25State).cache_ttl) ∧
    search lgId
        ({ initState with
            search_cache := [(cacheKey ["x"] 10, (0, [(0, 1)]))] } : BM25State)
        1 ["x"] 10 SearchOutcome.completed
      = (.returns [(0, 1)],
         { initState with
             search_cache := [(cacheKey ["x"] 10, (0, [(0, 1)]))] }) := by
  refine ⟨by decide, by decide, by decide, ?_⟩
  exact search_checks_cache_before_flush lgId _ 1 ["x"] 10 SearchOutcome.completed 0 [(0, 1)]
    (by decide) (by decide) (by decide)

/-- Claim C6 (code bug, failing input).  A fresh index buffers one document
via `add_document(0, ["x"])`; a search on `["x"]` then misses the (empty)
result cache while the pending buffer is non-empty.  The source takes
`self._lock` (`src/document_processing.py:183`) and awaits
`self._process_batch()` (`:187-188`), which blocks forever re-acquiring
the same non-reentrant `asyncio.Lock` (`:102`): whatever the oracle says
about the never-reached `wait_for`, the call deadlocks — it does NOT
return `[]`, and a cancellation delivered at the blocked acquire
propagates out of `search` uncaught (`CancelledError` is a
`BaseException`; the `except Exception` handlers at `:216`/`:220` miss it
and the handler at `:209` covers only the `wait_for` block), contradicting
the claim that every failure mode degrades to an empty result list.  On
the reachable `wait_for` path (empty buffer) the handlers do return `[]`
with no cache write — see `search_miss_failure_state`. -/
theorem search_cancellation_propagates_code_bug :
    ∀ o : SearchOutcome,
      search lgId (run [Op.add 0 ["x"]]) 0 ["x"] 10 o
          = (SearchBehaviour.deadlocks, run [Op.add 0 ["x"]]) ∧
      (search lgId (run [Op.add 0 ["x"]]) 0 ["x"] 10 o).1
          ≠ SearchBehaviour.returns [] := by
  intro o
  cases o <;> exact ⟨by decide, by decide⟩

/-- On a cache miss with an empty pending buffer and a failing outcome of
the `wait_for` call, `search` returns the empty list and writes nothing:
the failure handlers at `src/document_processing.py:206-214` degrade to
`[]` and the cache write sits only in the success path. -/
theorem search_miss_failure_state (lg : ℚ → ℚ) (s : BM25State) (now : ℚ)
    (qts : List String) (k : ℕ) (o : SearchOutcome) (hq : qts ≠ [])
    (hmiss : ∀ ts res, alookup (cacheKey qts k) s.search_cache = some (ts, res) →
      ¬ (now - ts < s.cache_ttl))
    (hpend : s.pending_updates = [])
    (hout : o ≠ SearchOutcome.completed) :
    search lg s now qts k o = (.returns [], s) := by
  unfold search
  rw [if_neg hq]
  rcases halk : alookup (cacheKey qts k) s.search_cache with _ | tr
  · simp [halk, hpend]
  · have hst : ¬ (now - tr.1 < s.cache_ttl) := hmiss tr.1 tr.2 (by rw [halk])
    simp [halk, hst, hpend]

/-- On a cache miss with a non-empty pending buffer, `search` deadlocks
(`src/document_processing.py:183` vs `:102`) whatever the `wait_for`
oracle would have said, and no state is mutated. -/
theorem search_miss_pending_deadlocks (lg : ℚ → ℚ) (s : BM25State) (now : ℚ)
    (qts : List String) (k : ℕ) (o : SearchOutcome) (hq : qts ≠ [])
    (hmiss : ∀ ts res, alookup (cacheKey qts k) s.search_cache = some (ts, res) →
      ¬ (now - ts < s.cache_ttl))
    (hpend : s.pending_updates ≠ []) :
    search lg s now qts k o = (.deadlocks, s) := by
  unfold search
  rw [if_neg hq]
  have hpe : s.pending_updates.isEmpty = false := by
    rcases hp : s.pending_updates with _ | ⟨a, l⟩
    · exact absurd hp hpend
    · rfl
  rcases halk : alookup (cacheKey qts k) s.search_cache with _ | tr
  · simp [halk, hpe]
  · have hst : ¬ (now - tr.1 < s.cache_ttl) := hmiss tr.1 tr.2 (by rw [halk])
    simp [halk, hst, hpe]

/-- On a cache miss with an empty pending buffer and a completed outcome,
`search` runs the internal search on the unflushed state and caches
non-empty results. -/
theorem search_miss_completed_eq (lg : ℚ → ℚ) (s : BM25State) (now : ℚ)
    (qts : List String) (k : ℕ) (hq : qts ≠ [])
    (hmiss : ∀ ts res, alookup (cacheKey qts k) s.search_cache = some (ts, res) →
      ¬ (now - ts < s.cache_ttl))
    (hpend : s.pending_updates = []) :
    search lg s now qts k SearchOutcome.completed =
      (if (_search_internal lg s qts k).1 = []
       then (.returns (_search_internal lg s qts k).1, (_search_internal lg s qts k).2)
       else (.returns (_search_internal lg s qts k).1,
             { (_search_internal lg s qts k).2 with
                 search_cache := aupdate (cacheKey qts k)
                   (now, (_search_internal lg s qts k).1)
                   (_search_internal lg s qts k).2.search_cache })) := by
  unfold search
  rw [if_neg hq]
  rcases halk : alookup (cacheKey qts k) s.search_cache with _ | tr
  · simp [halk, hpend]
  · have hst : ¬ (now - tr.1 < s.cache_ttl) := hmiss tr.1 tr.2 (by rw [halk])
    simp [halk, hst, hpend]

/-- A record update of the search cache leaves the core fields alone. -/
theorem coreEq_set_search_cache (a : BM25State) (c : List (String × ℚ × List (ℕ × ℚ))) :
    CoreEq { a with search_cache := c } a := by
  unfold CoreEq; exact ⟨rfl, rfl, rfl, rfl, rfl⟩

/-- One `search` step, seen from the run-level invariants: `search` never
flushes (a fresh hit returns before the lock, a miss with pending updates
deadlocks at the re-acquired lock, and an empty-buffer miss has nothing to
flush), so the final state agrees on the core fields with the pre-state,
and the search cache is either untouched or extended/overwritten at one
key with a NON-EMPTY result list. -/
theorem search_step_chars (lg : ℚ → ℚ) (s : BM25State) (now : ℚ) (qts : List String)
    (k : ℕ) (o : SearchOutcome) :
    CoreEq (search lg s now qts k o).2 s ∧
      ((search lg s now qts k o).2.search_cache = s.search_cache ∨
        ∃ key r, r ≠ [] ∧
          (search lg s now qts k o).2.search_cache =
            aupdate key (now, r) s.search_cache) := by
  by_cases hq : qts = []
  · subst hq
    rw [search_empty]
    exact ⟨coreEq_refl s, Or.inl rfl⟩
  · by_cases hhit : ∃ tr : ℚ × List (ℕ × ℚ),
        alookup (cacheKey qts k) s.search_cache = some tr ∧ now - tr.1 < s.cache_ttl
    · obtain ⟨tr, halk, hfresh⟩ := hhit
      rw [search_hit_state_unchanged lg s now qts k o tr.1 tr.2 hq (by rw [halk]) hfresh]
      exact ⟨coreEq_refl s, Or.inl rfl⟩
    · have hmiss : ∀ ts res, alookup (cacheKey qts k) s.search_cache = some (ts, res) →
          ¬ (now - ts < s.cache_ttl) := by
        intro ts res h hf
        exact hhit ⟨(ts, res), h, hf⟩
      by_cases hp : s.pending_updates = []
      · cases o with
        | completed =>
          rw [search_miss_completed_eq lg s now qts k hq hmiss hp]
          have hf := search_internal_frame lg qts k s
          by_cases hr : (_search_internal lg s qts k).1 = []
          · rw [if_pos hr]
            exact ⟨coreEq_of_frameEq hf, Or.inl (frameEq_search_cache hf)⟩
          · rw [if_neg hr]
            refine ⟨coreEq_trans (coreEq_set_search_cache _ _) (coreEq_of_frameEq hf),
              Or.inr ⟨cacheKey qts k, (_search_internal lg s qts k).1, hr, ?_⟩⟩
            show aupdate (cacheKey qts k) _ (_search_internal lg s qts k).2.search_cache = _
            rw [frameEq_search_cache hf]
        | timedOut =>
          rw [search_miss_failure_state lg s now qts k SearchOutcome.timedOut hq hmiss hp
            (by decide)]
          exact ⟨coreEq_refl _, Or.inl rfl⟩
        | cancelled =>
          rw [search_miss_failure_state lg s now qts k SearchOutcome.cancelled hq hmiss hp
            (by decide)]
          exact ⟨coreEq_refl _, Or.inl rfl⟩
        | errored =>
          rw [search_miss_failure_state lg s now qts k SearchOutcome.errored hq hmiss hp
            (by decide)]
          exact ⟨coreEq_refl _, Or.inl rfl⟩
      · rw [search_miss_pending_deadlocks lg s now qts k o hq hmiss hp]
        exact ⟨coreEq_refl _, Or.inl rfl⟩

/-- Membership after a dict assignment: the new pair or an old one. -/
theorem aupdate_mem {κ α : Type} [DecidableEq κ] (k : κ) (v : α) :
    ∀ (m : List (κ × α)) (p : κ × α), p ∈ aupdate k v m → p = (k, v) ∨ p ∈ m := by
  intro m
  induction m with
  | nil =>
    intro p hp
    unfold aupdate at hp
    exact Or.inl (List.mem_singleton.mp hp)
  | cons q rest ih =>
    intro p hp
    unfold aupdate at hp
    by_cases hk : q.1 = k
    · rw [if_pos hk] at hp
      rcases List.mem_cons.mp hp with h | h
      · exact Or.inl h
      · exact Or.inr (List.mem_cons_of_mem q h)
    · rw [if_neg hk] at hp
      rcases List.mem_cons.mp hp with h | h
      · exact Or.inr (by rw [h]; exact List.mem_cons_self q rest)
      · rcases ih p h with h2 | h2
        · exact Or.inl h2
        · exact Or.inr (List.mem_cons_of_mem q h2)

/-- Frame property: `add_document` leaves the search cache alone. -/
theorem add_document_search_cache (s : BM25State) (d : ℕ) (ts : List String) :
    (add_document s d ts).search_cache = s.search_cache := by
  unfold add_document
  dsimp only
  split_ifs with h
  · exact process_batch_search_cache _
  · rfl

/-- Every mutation step preserves the no-empty-entry cache invariant. -/
theorem cacheOK_step (s : BM25State) (op : Op) (h : CacheOK s) : CacheOK (step s op) := by
  cases op with
  | add d ts =>
    intro p hp
    rw [step, add_document_search_cache] at hp
    exact h p hp
  | flush =>
    intro p hp
    rw [step, process_batch_search_cache] at hp
    exact h p hp
  | query lg now ts k o =>
    obtain ⟨_, hcache⟩ := search_step_chars lg s now ts k o
    intro p hp
    rw [step] at hp
    rcases hcache with hc | ⟨key, r, hr, hc⟩
    · rw [hc] at hp
      exact h p hp
    · rw [hc] at hp
      rcases aupdate_mem key (now, r) s.search_cache p hp with h2 | h2
      · rw [h2]
        exact hr
      · exact h p h2

/-- The invariant holds in every state reachable from a fresh index. -/
theorem cacheOK_run (ops : List Op) : CacheOK (run ops) := by
  have main : ∀ (l : List Op) (s : BM25State), CacheOK s → CacheOK (l.foldl step s) := by
    intro l
    induction l with
    | nil => intro s h; exact h
    | cons op rest ih =>
      intro s h
      exact ih (step s op) (cacheOK_step s op h)
  exact main ops initState (fun p hp => absurd hp (by simp [initState]))

/-- Claim C10 (confirmed).  In every index state reachable by any sequence of
`add_document` / flush / search operations from a fresh index, the search
result cache contains no entry whose stored result list is empty: `search`
caches only non-empty results, so a query with no matching documents can
never be answered from the cache. -/
theorem search_cache_no_empty_entry (ops : List Op)
    (p : String × ℚ × List (ℕ × ℚ)) (hp : p ∈ (run ops).search_cache) :
    p.2.2 ≠ [] :=
  cacheOK_run ops p hp

/-- Witness for C10: after one add, a flush, and one completed search (run
with an empty pending buffer, so it reaches the `wait_for` and caches),
the cache holds exactly the entry for `"x"`/`top_k = 10`, and the theorem
applies to it. -/
theorem search_cache_no_empty_entry_witness :
    (("x_10", ((0 : ℚ), [((0 : ℕ), (4 : ℚ)/3)]))
        ∈ (run [Op.add 0 ["x"], Op.flush,
                Op.query lgId 0 ["x"] 10 SearchOutcome.completed]).search_cache) ∧
    ([((0 : ℕ), (4 : ℚ)/3)] : List (ℕ × ℚ)) ≠ [] := by
  refine ⟨by decide, ?_⟩
  exact search_cache_no_empty_entry
    [Op.add 0 ["x"], Op.flush, Op.query lgId 0 ["x"] 10 SearchOutcome.completed]
    ("x_10", ((0 : ℚ), [((0 : ℕ), (4 : ℚ)/3)])) (by decide)

/-- The map `lensSum` distributes over append. -/
theorem lensSum_append (a b : List (ℕ × List String)) :
    lensSum (a ++ b) = lensSum a + lensSum b := by
  simp [lensSum]

/-- Flushing preserves the running-mean invariant. -/
theorem meanInv_process_batch (adds : List (ℕ × List String)) (s : BM25State)
    (h : MeanInv adds s) : MeanInv adds (_process_batch s) := by
  obtain ⟨h1, h2⟩ := h
  obtain ⟨c1, c2, c3, _⟩ := process_batch_stats s
  unfold MeanInv
  constructor
  · rw [c3, lensSum_nil, add_zero, c2, h1]
  · rw [c3]
    simp only [List.length_nil, add_zero]
    omega

/-- Step lemma: `add_document` preserves the running-mean invariant, extending the add
trace by one document (including the automatic flush at the batch bound). -/
theorem meanInv_add (adds : List (ℕ × List String)) (s : BM25State)
    (d : ℕ) (ts : List String) (h : MeanInv adds s) :
    MeanInv (adds ++ [(d, ts)]) (add_document s d ts) := by
  obtain ⟨h1, h2⟩ := h
  have hmid : MeanInv (adds ++ [(d, ts)])
      { s with pending_updates := s.pending_updates ++ [(d, ts)] } := by
    unfold MeanInv
    constructor
    · show s.avg_doc_length * (s.doc_count : ℚ) +
          lensSum (s.pending_updates ++ [(d, ts)]) = lensSum (adds ++ [(d, ts)])
      rw [lensSum_append, lensSum_append, ← h1]
      ring
    · show s.doc_count + (s.pending_updates ++ [(d, ts)]).length = (adds ++ [(d, ts)]).length
      simp only [List.length_append, List.length_cons, List.length_nil]
      omega
  unfold add_document
  dsimp only
  split_ifs with hb
  · exact meanInv_process_batch _ _ hmid
  · exact hmid

/-- The running-mean invariant only reads core fields. -/
theorem meanInv_coreEq (adds : List (ℕ × List String)) {a b : BM25State}
    (hc : CoreEq a b) (h : MeanInv adds b) : MeanInv adds a := by
  unfold CoreEq at hc
  unfold MeanInv at h ⊢
  obtain ⟨_, _, c3, c4, c5⟩ := hc
  rw [c3, c4, c5]
  exact h

/-- Any single operation preserves the running-mean invariant. -/
theorem meanInv_step (s : BM25State) (op : Op) (adds : List (ℕ × List String))
    (h : MeanInv adds s) : MeanInv (adds ++ addsOf [op]) (step s op) := by
  cases op with
  | add d ts => exact meanInv_add adds s d ts h
  | flush =>
    show MeanInv (adds ++ []) (_process_batch s)
    rw [List.append_nil]
    exact meanInv_process_batch adds s h
  | query lg now ts k o =>
    show MeanInv (adds ++ []) (search lg s now ts k o).2
    rw [List.append_nil]
    obtain ⟨hcore, _⟩ := search_step_chars lg s now ts k o
    exact meanInv_coreEq adds hcore h

/-- The trace projection `addsOf` splits off its head operation. -/
theorem addsOf_cons (op : Op) (rest : List Op) :
    addsOf (op :: rest) = addsOf [op] ++ addsOf rest := by
  cases op <;> simp [addsOf]

/-- The trace projection `addsOf` distributes over trace concatenation. -/
theorem addsOf_append (a b : List Op) : addsOf (a ++ b) = addsOf a ++ addsOf b := by
  induction a with
  | nil => simp [addsOf]
  | cons op rest ih =>
    rw [List.cons_append, addsOf_cons, addsOf_cons op rest, ih, List.append_assoc]

/-- The running-mean invariant holds along every trace. -/
theorem meanInv_run (ops : List Op) :
    ∀ (s : BM25State) (adds : List (ℕ × List String)),
      MeanInv adds s → MeanInv (adds ++ addsOf ops) (ops.foldl step s) := by
  induction ops with
  | nil => intro s adds h; simpa [addsOf] using h
  | cons op rest ih =>
    intro s adds h
    rw [addsOf_cons, ← List.append_assoc, List.foldl_cons]
    exact ih (step s op) (adds ++ addsOf [op]) (meanInv_step s op adds h)

/-- Claim C2 (confirmed).  For every operation trace — documents added via
`add_document` in any batch grouping, flushes and searches interleaved
anywhere — after a final flush `avg_doc_length` equals exactly (over ℚ) the
arithmetic mean of the added term-list lengths, and `doc_count` counts the
added documents; the value is produced solely by the incremental update
`avg' = (avg*(n-1) + len)/n` of `_process_batch`, which is the only place
the mean is ever written. -/
theorem avg_doc_length_exact_mean (ops : List Op) (h : addsOf ops ≠ []) :
    (run (ops ++ [Op.flush])).avg_doc_length =
      lensSum (addsOf ops) / (((addsOf ops).length : ℕ) : ℚ) ∧
    (run (ops ++ [Op.flush])).doc_count = (addsOf ops).length := by
  have hinit : MeanInv [] initState := by
    unfold MeanInv
    constructor
    · simp [initState, lensSum]
    · simp [initState]
  have hM := meanInv_run (ops ++ [Op.flush]) initState [] hinit
  rw [List.nil_append] at hM
  have haddsO : addsOf (ops ++ [Op.flush]) = addsOf ops := by
    rw [addsOf_append]
    simp [addsOf]
  rw [haddsO] at hM
  obtain ⟨h1, h2⟩ := hM
  unfold run
  have hpend : (List.foldl step initState (ops ++ [Op.flush])).pending_updates = [] := by
    rw [List.foldl_append]
    rfl
  rw [hpend, lensSum_nil, add_zero] at h1
  rw [hpend] at h2
  simp only [List.length_nil, add_zero] at h2
  have hn : (((addsOf ops).length : ℕ) : ℚ) ≠ 0 := by
    have hlen : (addsOf ops).length ≠ 0 := by
      intro h0
      exact h (List.length_eq_zero.mp h0)
    exact_mod_cast hlen
  refine ⟨?_, h2⟩
  rw [eq_div_iff hn]
  rw [h2] at h1
  exact h1

/-- Witness for C2: lengths 2 and 1 split across two flushes give the
exact mean 3/2. -/
theorem avg_doc_length_exact_mean_witness :
    (addsOf [Op.add 0 ["u", "v"], Op.flush, Op.add 1 ["w"]] ≠ []) ∧
    (run ([Op.add 0 ["u", "v"], Op.flush, Op.add 1 ["w"]] ++ [Op.flush])).avg_doc_length
      = lensSum (addsOf [Op.add 0 ["u", "v"], Op.flush, Op.add 1 ["w"]]) /
        (((addsOf [Op.add 0 ["u", "v"], Op.flush, Op.add 1 ["w"]]).length : ℕ) : ℚ) ∧
    (run ([Op.add 0 ["u", "v"], Op.flush, Op.add 1 ["w"]] ++ [Op.flush])).doc_count
      = (addsOf [Op.add 0 ["u", "v"], Op.flush, Op.add 1 ["w"]]).length := by
  have h := avg_doc_length_exact_mean [Op.add 0 ["u", "v"], Op.flush, Op.add 1 ["w"]]
    (by decide)
  exact ⟨by decide, h.1, h.2⟩

/-- Length of the zero-padded `doc_lengths`. -/
theorem padTo_length (l : List ℕ) (i : ℕ) :
    (padTo l i).length = if l.length ≤ i then i + 1 else l.length := by
  unfold padTo
  split_ifs with h
  · rw [List.length_append, List.length_replicate]
    omega
  · rfl

/-- Under contiguity, flushing one document extends `doc_lengths` by
exactly one slot. -/
theorem flushDoc_doc_lengths_len (s : BM25State) (d : ℕ × List String)
    (hlen : s.doc_lengths.length = s.doc_count) (hid : d.1 = s.doc_count) :
    (flushDoc s d).doc_lengths.length = s.doc_count + 1 := by
  show ((padTo s.doc_lengths d.1).set d.1 d.2.length).length = s.doc_count + 1
  rw [List.length_set, padTo_length, hlen, hid]
  simp

/-- Flushing a gap-free pending batch keeps `doc_lengths` in bijection
with the counted documents. -/
theorem foldl_flushDoc_contig (l : List (ℕ × List String)) :
    ∀ s : BM25State, s.doc_lengths.length = s.doc_count →
      l.map Prod.fst = List.range' s.doc_count l.length →
      (l.foldl flushDoc s).doc_lengths.length = (l.foldl flushDoc s).doc_count := by
  induction l with
  | nil => intro s h _; exact h
  | cons d rest ih =>
    intro s h hids
    rw [List.map_cons, List.length_cons, List.range'_succ] at hids
    obtain ⟨hd, hrest⟩ := List.cons_eq_cons.mp hids
    rw [List.foldl_cons]
    apply ih
    · exact flushDoc_doc_lengths_len s d h hd
    · exact hrest

/-- Step lemma: `_process_batch` preserves the contiguity invariant. -/
theorem contigInv_process_batch (m : ℕ) (s : BM25State) (h : ContigInv m s) :
    ContigInv m (_process_batch s) := by
  obtain ⟨h1, h2, h3⟩ := h
  obtain ⟨c1, _, c3, _⟩ := process_batch_stats s
  have hfold := foldl_flushDoc_contig s.pending_updates s h1 h2
  unfold ContigInv
  refine ⟨hfold, ?_, ?_⟩
  · rw [c3]
    rfl
  · rw [c3, c1]
    simp only [List.length_nil, add_zero]
    omega

/-- The contiguity invariant only reads core fields. -/
theorem contigInv_coreEq (m : ℕ) {a b : BM25State} (hc : CoreEq a b)
    (h : ContigInv m b) : ContigInv m a := by
  unfold CoreEq at hc
  unfold ContigInv at h ⊢
  obtain ⟨_, c2, _, c4, c5⟩ := hc
  rw [c2, c4, c5]
  exact h

/-- Adding the next contiguous doc id preserves the invariant. -/
theorem contigInv_add (m : ℕ) (s : BM25State) (d : ℕ) (ts : List String)
    (h : ContigInv m s) (hd : d = m) : ContigInv (m + 1) (add_document s d ts) := by
  obtain ⟨h1, h2, h3⟩ := h
  have hdc : d = s.doc_count + s.pending_updates.length := by omega
  have hmid : ContigInv (m + 1)
      { s with pending_updates := s.pending_updates ++ [(d, ts)] } := by
    refine ⟨h1, ?_, ?_⟩
    · show (s.pending_updates ++ [(d, ts)]).map Prod.fst =
        List.range' s.doc_count (s.pending_updates ++ [(d, ts)]).length
      have hlen2 : (s.pending_updates ++ [(d, ts)]).length = s.pending_updates.length + 1 := by
        simp
      rw [List.map_append, hlen2]
      simp only [List.map_cons, List.map_nil]
      rw [h2, hdc]
      have hrc := @List.range'_concat 1 s.doc_count s.pending_updates.length
      simp only [one_mul] at hrc
      exact hrc.symm
    · show s.doc_count + (s.pending_updates ++ [(d, ts)]).length = m + 1
      simp only [List.length_append, List.length_cons, List.length_nil]
      omega
  unfold add_document
  dsimp only
  split_ifs with hb
  · exact contigInv_process_batch _ _ hmid
  · exact hmid

/-- The contiguity invariant holds along every trace whose added doc ids
continue the range. -/
theorem contigInv_run (ops : List Op) :
    ∀ (m : ℕ) (s : BM25State), ContigInv m s →
      (addsOf ops).map Prod.fst = List.range' m (addsOf ops).length →
      ContigInv (m + (addsOf ops).length) (ops.foldl step s) := by
  induction ops with
  | nil => intro m s h _; simpa [addsOf] using h
  | cons op rest ih =>
    intro m s h hids
    rw [List.foldl_cons]
    cases op with
    | add d ts =>
      rw [show addsOf (Op.add d ts :: rest) = (d, ts) :: addsOf rest from rfl,
          List.map_cons, List.length_cons, List.range'_succ] at hids
      obtain ⟨hd, hrest⟩ := List.cons_eq_cons.mp hids
      have h2 := contigInv_add m s d ts h hd
      have h3 := ih (m + 1) (add_document s d ts) h2 hrest
      have hlen : (addsOf (Op.add d ts :: rest)).length = (addsOf rest).length + 1 := by
        simp [addsOf]
      rw [hlen, show m + ((addsOf rest).length + 1) = m + 1 + (addsOf rest).length from by omega]
      exact h3
    | flush =>
      have h2 := contigInv_process_batch m s h
      have h3 := ih m _ h2 (by simpa [addsOf] using hids)
      simpa [addsOf] using h3
    | query lg now ts k o =>
      obtain ⟨hcore, _⟩ := search_step_chars lg s now ts k o
      have h2 : ContigInv m (search lg s now ts k o).2 := contigInv_coreEq m hcore h
      have h3 := ih m _ h2 (by simpa [addsOf] using hids)
      simpa [addsOf] using h3

/-- Claim C3, amended. (the claim holds for gap-free id sequences).  If the doc
ids handed to `add_document` are exactly `0, 1, ..., n-1` in order — no
gaps from rejected chunks — then after the final flush (and along any
interleaving of flushes and searches) `doc_lengths.length = doc_count`. -/
theorem doc_lengths_matches_doc_count (ops : List Op)
    (h : (addsOf ops).map Prod.fst = List.range (addsOf ops).length) :
    (run (ops ++ [Op.flush])).doc_lengths.length =
      (run (ops ++ [Op.flush])).doc_count := by
  have hinit : ContigInv 0 initState := ⟨rfl, rfl, rfl⟩
  have hids : (addsOf (ops ++ [Op.flush])).map Prod.fst =
      List.range' 0 (addsOf (ops ++ [Op.flush])).length := by
    rw [addsOf_append, show addsOf [Op.flush] = [] from rfl, List.append_nil,
        ← List.range_eq_range']
    exact h
  exact (contigInv_run (ops ++ [Op.flush]) 0 initState hinit hids).1

/-- Witness for the amended C3: two contiguous ids. -/
theorem doc_lengths_matches_doc_count_witness :
    ((addsOf [Op.add 0 ["a"], Op.add 1 ["b", "c"]]).map Prod.fst
      = List.range (addsOf [Op.add 0 ["a"], Op.add 1 ["b", "c"]]).length) ∧
    (run ([Op.add 0 ["a"], Op.add 1 ["b", "c"]] ++ [Op.flush])).doc_lengths.length
      = (run ([Op.add 0 ["a"], Op.add 1 ["b", "c"]] ++ [Op.flush])).doc_count := by
  refine ⟨by decide, ?_⟩
  exact doc_lengths_matches_doc_count [Op.add 0 ["a"], Op.add 1 ["b", "c"]] (by decide)

/-- Elements of a stable score-descending insertion. -/
theorem insertScoreDesc_mem (p : ℕ × ℚ) :
    ∀ (l : List (ℕ × ℚ)) (x : ℕ × ℚ), x ∈ insertScoreDesc p l → x = p ∨ x ∈ l := by
  intro l
  induction l with
  | nil => intro x hx; exact Or.inl (List.mem_singleton.mp hx)
  | cons q rest ih =>
    intro x hx
    unfold insertScoreDesc at hx
    split_ifs at hx with hc
    · rcases List.mem_cons.mp hx with h | h
      · exact Or.inr (by rw [h]; exact List.mem_cons_self _ _)
      · rcases ih x h with h2 | h2
        · exact Or.inl h2
        · exact Or.inr (List.mem_cons_of_mem q h2)
    · rcases List.mem_cons.mp hx with h | h
      · exact Or.inl h
      · exact Or.inr h

/-- Stable insertion preserves the non-increasing-score order. -/
theorem insertScoreDesc_sorted (p : ℕ × ℚ) :
    ∀ (l : List (ℕ × ℚ)), l.Pairwise (fun a b => b.2 ≤ a.2) →
      (insertScoreDesc p l).Pairwise (fun a b => b.2 ≤ a.2) := by
  intro l
  induction l with
  | nil => intro _; exact List.pairwise_singleton _ p
  | cons q rest ih =>
    intro hp
    obtain ⟨hq, hrest⟩ := List.pairwise_cons.mp hp
    unfold insertScoreDesc
    split_ifs with hc
    · rw [List.pairwise_cons]
      refine ⟨?_, ih hrest⟩
      intro x hx
      rcases insertScoreDesc_mem p rest x hx with h | h
      · rw [h]; exact hc
      · exact hq x h
    · rw [List.pairwise_cons]
      refine ⟨?_, hp⟩
      intro x hx
      rcases List.mem_cons.mp hx with h | h
      · rw [h]; exact le_of_lt (not_le.mp hc)
      · exact le_trans (hq x h) (le_of_lt (not_le.mp hc))

/-- The stable sort of `_search_internal` produces a non-increasing score
sequence. -/
theorem sortByScoreDesc_sorted (l : List (ℕ × ℚ)) :
    (sortByScoreDesc l).Pairwise (fun a b => b.2 ≤ a.2) := by
  unfold sortByScoreDesc
  have main : ∀ (l acc : List (ℕ × ℚ)), acc.Pairwise (fun a b => b.2 ≤ a.2) →
      (l.foldl (fun acc p => insertScoreDesc p acc) acc).Pairwise
        (fun a b => b.2 ≤ a.2) := by
    intro l
    induction l with
    | nil => intro acc h; exact h
    | cons p rest ih => intro acc h; exact ih _ (insertScoreDesc_sorted p acc h)
  exact main l [] List.Pairwise.nil

/-- Claim C4, amended.  For every index state, query and `top_k = k`,
`_search_internal` returns at most `k` results whose scores are
non-increasing — but ties are left in stable-sort (score-accumulation)
order, not ascending-doc-id order.  The result is a function of the index
state and the query alone, hence deterministic. -/
theorem search_internal_topk_sorted (lg : ℚ → ℚ) (s : BM25State)
    (query_terms : List String) (k : ℕ) :
    (_search_internal lg s query_terms k).1.length ≤ k ∧
    (_search_internal lg s query_terms k).1.Pairwise (fun a b => b.2 ≤ a.2) := by
  constructor
  · exact List.length_take_le _ _
  · exact List.Pairwise.sublist (List.take_sublist _ _) (sortByScoreDesc_sorted _)

/-- Elements of a stable key-descending context insertion. -/
theorem insertCtxDesc_mem (p : ContextResult) :
    ∀ (l : List ContextResult) (x : ContextResult),
      x ∈ insertCtxDesc p l → x = p ∨ x ∈ l := by
  intro l
  induction l with
  | nil => intro x hx; exact Or.inl (List.mem_singleton.mp hx)
  | cons q rest ih =>
    intro x hx
    unfold insertCtxDesc at hx
    split_ifs at hx with hc
    · rcases List.mem_cons.mp hx with h | h
      · exact Or.inl h
      · exact Or.inr h
    · rcases List.mem_cons.mp hx with h | h
      · exact Or.inr (by rw [h]; exact List.mem_cons_self _ _)
      · rcases ih x h with h2 | h2
        · exact Or.inl h2
        · exact Or.inr (List.mem_cons_of_mem q h2)

/-- The context sort is a (sub)permutation at the membership level. -/
theorem sortCtxDesc_mem (l : List ContextResult) (x : ContextResult)
    (hx : x ∈ sortCtxDesc l) : x ∈ l := by
  unfold sortCtxDesc at hx
  have main : ∀ (l acc : List ContextResult) (x : ContextResult),
      x ∈ l.foldl (fun acc r => insertCtxDesc r acc) acc → x ∈ acc ∨ x ∈ l := by
    intro l
    induction l with
    | nil => intro acc x h; exact Or.inl h
    | cons r rest ih =>
      intro acc x h
      rcases ih _ x h with h2 | h2
      · rcases insertCtxDesc_mem r acc x h2 with h3 | h3
        · exact Or.inr (by rw [h3]; exact List.mem_cons_self _ _)
        · exact Or.inl h3
      · exact Or.inr (List.mem_cons_of_mem r h2)
  rcases main l [] x hx with h | h
  · exact absurd h (List.not_mem_nil x)
  · exact h

/-- Invariant-carrying specification of the selection loop of
`search_for_context`: at most 5 kept results, all above the score
threshold, pairwise-distinct file paths, and every kept record comes from
the input. -/
theorem combineLoop_spec :
    ∀ (rest : List ContextResult) (seen : List String) (unique : List ContextResult),
      unique.length < 5 →
      (∀ r ∈ unique, 10 ≤ r.score) →
      ((unique.map (fun r => r.file_path)).Nodup) →
      (∀ r ∈ unique, r.file_path ∈ seen) →
      (combineLoop rest seen unique).length ≤ 5 ∧
      (∀ r ∈ combineLoop rest seen unique, 10 ≤ r.score) ∧
      ((combineLoop rest seen unique).map (fun r => r.file_path)).Nodup ∧
      (∀ r ∈ combineLoop rest seen unique, r ∈ unique ∨ r ∈ rest) := by
  intro rest
  induction rest with
  | nil =>
    intro seen unique hlen h10 hnd _
    unfold combineLoop
    exact ⟨le_of_lt hlen, h10, hnd, fun r h => Or.inl h⟩
  | cons r rest2 ih =>
    intro seen unique hlen h10 hnd hseen
    have hkeep10 : ¬ r.score < 10 → ∀ x ∈ unique ++ [r], 10 ≤ x.score := by
      intro hsc x hx
      rcases List.mem_append.mp hx with h | h
      · exact h10 x h
      · rw [List.mem_singleton.mp h]; exact not_lt.mp hsc
    have hkeepnd : ¬ r.file_path ∈ seen →
        ((unique ++ [r]).map (fun x => x.file_path)).Nodup := by
      intro hpath
      rw [List.map_append, List.nodup_append]
      refine ⟨hnd, by simp, ?_⟩
      intro a ha hb
      simp only [List.map_cons, List.map_nil, List.mem_singleton] at hb
      rw [hb] at ha
      obtain ⟨y, hy, hyp⟩ := List.mem_map.mp ha
      exact hpath (hyp ▸ hseen y hy)
    unfold combineLoop
    dsimp only
    split_ifs with hsc hpath hfull
    · obtain ⟨a, b, c, d⟩ := ih seen unique hlen h10 hnd hseen
      exact ⟨a, b, c, fun x hx => (d x hx).imp id (List.mem_cons_of_mem r)⟩
    · obtain ⟨a, b, c, d⟩ := ih seen unique hlen h10 hnd hseen
      exact ⟨a, b, c, fun x hx => (d x hx).imp id (List.mem_cons_of_mem r)⟩
    · refine ⟨?_, hkeep10 hsc, hkeepnd hpath, ?_⟩
      · rw [List.length_append, List.length_singleton]
        omega
      · intro x hx
        rcases List.mem_append.mp hx with h | h
        · exact Or.inl h
        · exact Or.inr (by rw [List.mem_singleton.mp h]; exact List.mem_cons_self _ _)
    · have hlen2 : (unique ++ [r]).length < 5 := by
        rw [List.length_append, List.length_singleton] at hfull ⊢
        omega
      have hseen2 : ∀ x ∈ unique ++ [r], x.file_path ∈ seen ++ [r.file_path] := by
        intro x hx
        rcases List.mem_append.mp hx with h | h
        · exact List.mem_append_left _ (hseen x h)
        · rw [List.mem_singleton.mp h]
          exact List.mem_append_right _ (List.mem_singleton.mpr rfl)
      obtain ⟨a, b, c, d⟩ := ih (seen ++ [r.file_path]) (unique ++ [r]) hlen2
        (hkeep10 hsc) (hkeepnd hpath) hseen2
      refine ⟨a, b, c, ?_⟩
      intro x hx
      rcases d x hx with h | h
      · rcases List.mem_append.mp h with h2 | h2
        · exact Or.inl h2
        · exact Or.inr (by rw [List.mem_singleton.mp h2]; exact List.mem_cons_self _ _)
      · exact Or.inr (List.mem_cons_of_mem r h)

/-- Claim C8, amended.  The combination step returns at most 5 file paths,
pairwise distinct (one record per file path), every kept record scores at
least the `min_score = 10.0` threshold — records under the threshold are
discarded — and every kept record comes from the input result list.  The
kept record per file is the FIRST in the sort order (original-query
exact-match flag first, then score), which is the highest-scoring chunk
only within the same flag class. -/
theorem context_combination_bounds (results : List ContextResult) :
    (relevantFiles results).length ≤ 5 ∧
    (relevantFiles results).Nodup ∧
    ∀ r ∈ dedupTopResults results, 10 ≤ r.score ∧ r ∈ results := by
  obtain ⟨a, b, c, d⟩ := combineLoop_spec (sortCtxDesc results) [] []
    (by norm_num) (by simp) (by simp) (by simp)
  refine ⟨?_, c, ?_⟩
  · show ((dedupTopResults results).map (fun r => r.file_path)).length ≤ 5
    rw [List.length_map]
    exact a
  · intro r hr
    refine ⟨b r hr, ?_⟩
    rcases d r hr with h | h
    · exact absurd h (List.not_mem_nil r)
    · exact sortCtxDesc_mem results r h

/-- Witness for the amended C8: one above-threshold record is kept and the
conjuncts instantiate at it. -/
theorem context_combination_bounds_witness :
    (relevantFiles [⟨"q", 11, 0, true, true⟩]).length ≤ 5 ∧
    (relevantFiles [⟨"q", 11, 0, true, true⟩]).Nodup ∧
    ((⟨"q", 11, 0, true, true⟩ : ContextResult) ∈
        dedupTopResults [⟨"q", 11, 0, true, true⟩] ∧
      10 ≤ (⟨"q", 11, 0, true, true⟩ : ContextResult).score ∧
      (⟨"q", 11, 0, true, true⟩ : ContextResult) ∈
        ([⟨"q", 11, 0, true, true⟩] : List ContextResult)) := by
  have h := context_combination_bounds [⟨"q", 11, 0, true, true⟩]
  refine ⟨h.1, h.2.1, by decide, ?_, ?_⟩
  · exact (h.2.2 ⟨"q", 11, 0, true, true⟩ (by decide)).1
  · exact (h.2.2 ⟨"q", 11, 0, true, true⟩ (by decide)).2

end Clipbrd
